import Mathlib

/-!
Verification model of `src/app.py` (Message-Bridge bulk-email sender).

The program is a Streamlit app: it loads an Excel sheet of recipients with
pandas, renders a per-recipient message via Python `str.format` with the
keyword arguments `name` and `company`, builds a multipart MIME message
(plain text + HTML + optional inline image tagged `Content-ID: <banner>`)
and submits each message over one authenticated SMTP session, updating a
progress bar after each recipient.

The shallow embedding below translates, from the source:
  * the recipient loader (`pd.read_excel` column check, `Company` synthesis,
    `dropna(subset=["Email"])`, `to_dict("records")`) — cell values are
    `Option String`, with `none` standing for a missing cell (pandas NaN);
  * the fragment of CPython `str.format` that the program exercises:
    literal text, `\x7b\x7b`/`\x7d\x7d` escapes and named replacement fields.
    As in CPython, key lookup happens before conversion/format-spec
    handling, an unknown keyword raises `KeyError`, a stray or unterminated
    brace raises `ValueError`, and an empty or all-digit field name is a
    positional reference which raises `IndexError` (no positional arguments
    are passed at the call site).  Attribute access, conversions and format
    specs (`!…`/`:…` after a recognized key, including nested spec braces)
    are not modelled: such fields are mapped to the opaque
    `FormatError.other` / `FormatError.valueError`, and every theorem below
    restricts itself to templates that stay inside the modelled fragment;
  * the message builder (the HTML f-string of lines 124-131 and the
    `MIMEImage` part of lines 135-140);
  * the send loop of lines 81-157, as a trace of the user-visible events it
    produces (status texts, progress updates, the final success banner and
    the top-level error handler), with the SMTP collaborator abstracted as
    the outcome of `login` and of each `sendmail` call.
-/

deriving instance DecidableEq for Except

/-- A Python value held in a recipient cell: `some s` is the string `s`,
`none` is pandas `NaN` (a missing Excel cell). -/
abbrev PyVal := Option String

/-- `str(value)` as applied by `str.format` substitution: a string formats
as itself, `float('nan')` formats as `"nan"`. -/
def pyStr : PyVal → String
  | some s => s
  | none => "nan"

/-- Errors raised by the modelled fragment of `str.format`.
`keyError` is Python `KeyError` (the only error caught by the
`except KeyError` handler at `app.py:105`); `valueError` and `indexError`
are Python `ValueError` / `IndexError`; `other` stands for the unmodelled
conversion / attribute / format-spec machinery. -/
inductive FormatError
  | keyError (k : String)
  | valueError
  | indexError
  | other
deriving DecidableEq

/-- Characters that may appear in the key part of a replacement field;
`.`, `[`, `!` and `:` end the key (attribute access, conversion, spec). -/
def keyChar (ch : Char) : Bool :=
  !(ch == '.' || ch == '[' || ch == '!' || ch == ':')

/-- Evaluate one replacement field (the text between `\x7b` and `\x7d`)
against the keyword arguments `name := n, company := c`, mirroring CPython
order: positional/index lookup and keyword lookup happen before any
conversion or format spec is examined. -/
def evalField (n c : PyVal) (fld : List Char) : Except FormatError (List Char) :=
  let key := fld.takeWhile keyChar
  let rest := fld.dropWhile keyChar
  if key.all (·.isDigit) then
    -- empty or all-digit field name: positional auto-numbering / index,
    -- and `.format(name=…, company=…)` passes no positional arguments
    .error .indexError
  else if String.mk key = "name" then
    if rest.isEmpty then .ok (pyStr n).data else .error .other
  else if String.mk key = "company" then
    if rest.isEmpty then .ok (pyStr c).data else .error .other
  else
    .error (.keyError (String.mk key))

/-- Scanner state of the `str.format` parser: in literal text, just after a
single `\x7b`, just after a single `\x7d`, or inside a replacement field
(accumulator reversed). -/
inductive FmtSt
  | text
  | lbrace
  | rbrace
  | field (acc : List Char)
deriving DecidableEq

/-- One left-to-right pass of `str.format`: parsing and evaluation are
interleaved exactly as in CPython, so the first offending construct
determines the raised error. -/
def fmtRun (n c : PyVal) : List Char → FmtSt → Except FormatError (List Char)
  | [], .text => .ok []
  | [], .lbrace => .error .valueError
  | [], .rbrace => .error .valueError
  | [], .field _ => .error .valueError
  | ch :: rest, .text =>
    if ch = '{' then fmtRun n c rest .lbrace
    else if ch = '}' then fmtRun n c rest .rbrace
    else
      match fmtRun n c rest .text with
      | .ok s => .ok (ch :: s)
      | .error e => .error e
  | ch :: rest, .lbrace =>
    if ch = '{' then
      match fmtRun n c rest .text with
      | .ok s => .ok ('{' :: s)
      | .error e => .error e
    else if ch = '}' then
      match evalField n c [] with
      | .ok s =>
        match fmtRun n c rest .text with
        | .ok t => .ok (s ++ t)
        | .error e => .error e
      | .error e => .error e
    else fmtRun n c rest (.field [ch])
  | ch :: rest, .rbrace =>
    if ch = '}' then
      match fmtRun n c rest .text with
      | .ok s => .ok ('}' :: s)
      | .error e => .error e
    else .error .valueError
  | ch :: rest, .field acc =>
    if ch = '}' then
      match evalField n c acc.reverse with
      | .ok s =>
        match fmtRun n c rest .text with
        | .ok t => .ok (s ++ t)
        | .error e => .error e
      | .error e => .error e
    else if ch = '{' then .error .valueError
    else fmtRun n c rest (.field (ch :: acc))

/-- `message_template.format(name=recipient_name, company=recipient_company)`
(`app.py:101-104`). -/
def pyFormat (tmpl : String) (n c : PyVal) : Except FormatError String :=
  match fmtRun n c tmpl.data .text with
  | .ok s => .ok (String.mk s)
  | .error e => .error e

/-- The list of field keys of a template, defined when the template stays in
the modelled simple fragment: braces balanced and every replacement field a
plain non-positional key (no attribute access, conversion or format spec).
Runs the same scanner as `fmtRun`. -/
def simpleKeys : List Char → FmtSt → Option (List String)
  | [], .text => some []
  | [], .lbrace => none
  | [], .rbrace => none
  | [], .field _ => none
  | ch :: rest, .text =>
    if ch = '{' then simpleKeys rest .lbrace
    else if ch = '}' then simpleKeys rest .rbrace
    else simpleKeys rest .text
  | ch :: rest, .lbrace =>
    if ch = '{' then simpleKeys rest .text
    else if ch = '}' then none
    else simpleKeys rest (.field [ch])
  | ch :: rest, .rbrace =>
    if ch = '}' then simpleKeys rest .text else none
  | ch :: rest, .field acc =>
    if ch = '}' then
      let key := acc.reverse.takeWhile keyChar
      let restF := acc.reverse.dropWhile keyChar
      if restF.isEmpty && !(key.all (·.isDigit)) then
        match simpleKeys rest .text with
        | some ks => some (String.mk key :: ks)
        | none => none
      else none
    else if ch = '{' then none
    else simpleKeys rest (.field (ch :: acc))

/-- A template over the two recognized placeholders: literal text pieces and
the fields named `name` and `company`. -/
inductive Chunk
  | lit (s : String)
  | phName
  | phCompany

/-- The template text a chunk list denotes. -/
def assembleChunks : List Chunk → String
  | [] => ""
  | .lit s :: r => s ++ assembleChunks r
  | .phName :: r => "{name}" ++ assembleChunks r
  | .phCompany :: r => "{company}" ++ assembleChunks r

/-- The substitution the spec describes: placeholder chunks replaced by the
record values, literal chunks passed through unchanged. -/
def renderChunks (n c : PyVal) : List Chunk → String
  | [] => ""
  | .lit s :: r => s ++ renderChunks n c r
  | .phName :: r => pyStr n ++ renderChunks n c r
  | .phCompany :: r => pyStr c ++ renderChunks n c r

/-- Literal template text: contains neither brace. -/
def braceFreeStr (s : String) : Prop := ∀ ch ∈ s.data, ch ≠ '{' ∧ ch ≠ '}'

instance (s : String) : Decidable (braceFreeStr s) := by
  unfold braceFreeStr; infer_instance

/-- A chunk is admissible when its literal text is brace-free. -/
def chunkBraceFree : Chunk → Prop
  | .lit s => braceFreeStr s
  | .phName => True
  | .phCompany => True

instance (cnk : Chunk) : Decidable (chunkBraceFree cnk) := by
  cases cnk <;> simp only [chunkBraceFree] <;> infer_instance

/-- Prepend already-produced output to the result of the remaining scan. -/
def appendOut (s : List Char) :
    Except FormatError (List Char) → Except FormatError (List Char)
  | .ok t => .ok (s ++ t)
  | .error e => .error e

/-! ### Recipient loader (`app.py:21-38`) -/

/-- One spreadsheet row, projected onto the three columns the program reads
(`df[["Name", "Email", "Company"]]`).  `none` is an empty Excel cell, which
`pd.read_excel` turns into NaN. -/
structure Row where
  name : PyVal
  email : PyVal
  company : PyVal
deriving DecidableEq

/-- The uploaded tabular file: its header set and its rows. -/
structure SourceTable where
  columns : List String
  rows : List Row

/-- Failure of the `required_cols.issubset(df.columns)` check
(`app.py:27-28`); the spec calls it `ValidationError`. -/
inductive ValidationError
  | missingColumns
deriving DecidableEq

/-- `if "Company" not in df.columns: df["Company"] = ""` (`app.py:31-32`):
when the `Company` column is absent it is synthesized with the empty string
in every row. -/
def withCompanyDefault (t : SourceTable) : List Row :=
  if "Company" ∈ t.columns then t.rows
  else t.rows.map fun r => { r with company := some "" }

/-- The loader (`app.py:24-35`): validate that `Name` and `Email` are both
present, synthesize `Company` if absent, then
`dropna(subset=["Email"]).to_dict("records")` — keep, in order, exactly the
rows whose `Email` cell is present, with all cell values passed through
unchanged. -/
def loadRecipients (t : SourceTable) : Except ValidationError (List Row) :=
  if "Name" ∈ t.columns ∧ "Email" ∈ t.columns then
    .ok ((withCompanyDefault t).filter fun r => r.email.isSome)
  else
    .error .missingColumns

/-- The `recipients` variable after the load step: initialized to `[]`
(`app.py:20`) and only assigned in the validation-success branch. -/
def recipientsAfterLoad (t : SourceTable) : List Row :=
  match loadRecipients t with
  | .ok l => l
  | .error _ => []

/-! ### Message builder (`app.py:110-140`) -/

/-- The optional uploaded inline image (`uploaded_image`). -/
structure InlineImage where
  filename : String
  bytes : List Nat
deriving DecidableEq

/-- The `MIMEImage` part attached at `app.py:135-140`: the image bytes with
the `Content-ID` header value and the inline filename. -/
structure ImagePart where
  bytes : List Nat
  contentId : String
  filename : String
deriving DecidableEq

/-- The per-recipient outbound message: headers, the plain-text part, the
HTML part and the optional inline image part of the `related` container. -/
structure BuiltMessage where
  fromAddr : String
  toAddr : String
  subject : String
  plainBody : String
  htmlBody : String
  imagePart : Option ImagePart
deriving DecidableEq

/-- Fixed logical content identifier of the inline image. -/
def bannerId : String := "banner"

/-- The conditional `<img>` tag of `app.py:128`. -/
def imgTag : String :=
  "<br><img src=\x27cid:banner\x27 style=\x27width:600px;max-width:100%;height:auto;border-radius:10px;\x27>"

/-- Pieces of the `html_message` f-string (`app.py:124-131`), with its
literal indentation. -/
def htmlPre : String :=
  "\n                    <html>\n                      <body>\n                        "

/-- Literal text between the personalized message and the conditional image
tag in the f-string. -/
def htmlMid : String := "\n                        "

/-- Literal tail of the f-string after the conditional image tag. -/
def htmlPost : String :=
  "\n                      </body>\n                    </html>\n                    "

/-- `html_message` (`app.py:124-131`): the personalized message wrapped in a
minimal HTML document, with the `cid:banner` image tag appended exactly when
an image was uploaded. -/
def htmlMessage (personalized : String) (hasImage : Bool) : String :=
  htmlPre ++ personalized ++ htmlMid ++ (if hasImage then imgTag else "") ++ htmlPost

/-- The message build of `app.py:110-140` for one recipient. -/
def buildMessage (sender rcpt subject personalized : String)
    (img : Option InlineImage) : BuiltMessage :=
  { fromAddr := sender
    toAddr := rcpt
    subject := subject
    plainBody := personalized
    htmlBody := htmlMessage personalized img.isSome
    imagePart := img.map fun im =>
      { bytes := im.bytes, contentId := "<banner>", filename := im.filename } }

/-! ### Substring occurrence (used to state the `cid:` round-trip) -/

/-- `leadsWith pat l` holds when `pat` is an initial run of `l`. -/
def leadsWith : List Char → List Char → Bool
  | [], _ => true
  | _ :: _, [] => false
  | a :: as, b :: bs => a == b && leadsWith as bs

/-- `occursIn pat l` holds when `pat` occurs contiguously somewhere in `l`. -/
def occursIn (pat : List Char) : List Char → Bool
  | [] => pat.isEmpty
  | ch :: rest => leadsWith pat (ch :: rest) || occursIn pat rest

/-! ### Send orchestrator (`app.py:81-157`) -/

/-- The SMTP collaborator, abstracted to the outcomes of the two calls that
can fail: `server.login` (`app.py:87`) and the i-th `server.sendmail`
(`app.py:144`).  An `.error` value carries the exception detail string. -/
structure Transport where
  login : Except String Unit
  send : Nat → Except String Unit

/-- The exception reaching the pass-level `except Exception` handler
(`app.py:155-157`). -/
inductive PassException
  | authError (detail : String)
  | formatException (e : FormatError)
deriving DecidableEq

/-- User-visible events of one send pass, in order: a successful-send status
text (`app.py:145`), a failed-send status text with the exception detail
(`app.py:147`), a progress-bar update (`app.py:150`) recording the processed
count `i + 1` and the total `len(recipients)` — the value passed to
`progress.progress` is their quotient, `progressFrac` below —, the
unrecognized-placeholder error (`app.py:106`), the final success banner
naming `len(recipients)` (`app.py:153`), and the top-level error message
(`app.py:157`). -/
inductive PassEvent
  | sentOk (i : Nat) (msg : BuiltMessage)
  | sendFailed (i : Nat) (detail : String)
  | progressed (done total : Nat)
  | templateErrorMsg
  | successMsg (n : Nat)
  | topErrorMsg (exn : PassException)
deriving DecidableEq

/-- The fraction `(i + 1) / len(recipients)` passed to `progress.progress`
at `app.py:150` (Python 3 true division). -/
def progressFrac (done total : Nat) : ℚ := (done : ℚ) / (total : ℚ)

/-- The `for i, rec in enumerate(recipients)` loop (`app.py:94-150`).
Returns the events emitted so far and, when a non-`KeyError` exception
escaped the loop, that exception.  A `KeyError` from `format` prints the
template error and `break`s (loop ends without exception); any exception
from `sendmail` is caught per recipient and the loop continues; the
progress bar is updated after each recipient that reaches the send step. -/
def sendLoop (sender subject tmpl : String) (tr : Transport)
    (img : Option InlineImage) (total : Nat) :
    Nat → List Row → List PassEvent × Option FormatError
  | _, [] => ([], none)
  | i, rec :: rest =>
    match pyFormat tmpl rec.name rec.company with
    | .error (.keyError _) => ([.templateErrorMsg], none)
    | .error e => ([], some e)
    | .ok body =>
      let msg := buildMessage sender (pyStr rec.email) subject body img
      let ev := match tr.send i with
        | .ok _ => PassEvent.sentOk i msg
        | .error d => PassEvent.sendFailed i d
      let res := sendLoop sender subject tmpl tr img total (i + 1) rest
      (ev :: .progressed (i + 1) total :: res.1, res.2)

/-- One full send pass (`app.py:81-157`): login, run the loop, then either
the final success banner (`app.py:153`, reached whenever no exception
escaped the `with` block — including after a template-error `break`) or the
single top-level error message (`app.py:157`). -/
def sendPass (sender subject tmpl : String) (recs : List Row)
    (tr : Transport) (img : Option InlineImage) : List PassEvent :=
  match tr.login with
  | .error d => [.topErrorMsg (.authError d)]
  | .ok _ =>
    match sendLoop sender subject tmpl tr img recs.length 0 recs with
    | (evs, some e) => evs ++ [.topErrorMsg (.formatException e)]
    | (evs, none) => evs ++ [.successMsg recs.length]

/-- The loop trace of a pass in which every rendering succeeds: per
recipient, one send event (success or caught delivery failure) followed by
one progress update. -/
def okLoopTrace (sender subject tmpl : String) (tr : Transport)
    (img : Option InlineImage) (total : Nat) : Nat → List Row → List PassEvent
  | _, [] => []
  | i, rec :: rest =>
    match pyFormat tmpl rec.name rec.company with
    | .error _ => []
    | .ok body =>
      (match tr.send i with
       | .ok _ =>
         PassEvent.sentOk i (buildMessage sender (pyStr rec.email) subject body img)
       | .error d => PassEvent.sendFailed i d)
        :: .progressed (i + 1) total
        :: okLoopTrace sender subject tmpl tr img total (i + 1) rest

/-- A transport whose login and deliveries all succeed. -/
def allOkTransport : Transport := ⟨.ok (), fun _ => .ok ()⟩

/-- A transport that accepts the credentials but rejects the third
delivery (index 2). -/
def failThirdTransport : Transport :=
  ⟨.ok (), fun i => if i = 2 then .error "550 recipient rejected" else .ok ()⟩

/-- Five loaded recipients, used by concrete scenarios. -/
def fiveRecs : List Row :=
  [⟨some "A", some "a@x.com", some ""⟩, ⟨some "B", some "b@x.com", some ""⟩,
   ⟨some "C", some "c@x.com", some ""⟩, ⟨some "D", some "d@x.com", some ""⟩,
   ⟨some "E", some "e@x.com", some ""⟩]

/-- A loaded row whose `Name` Excel cell was empty (pandas NaN). -/
def nanNameRow : Row := ⟨none, some "ann@x.com", some "Acme"⟩

/-- A source table with all three columns and a single row with an empty
`Name` cell. -/
def nanNameTable : SourceTable :=
  ⟨["Name", "Email", "Company"], [nanNameRow]⟩

/-- A three-row source with `Name` and `Email` columns only, whose second
row has an empty `Email` cell. -/
def threeRowTable : SourceTable :=
  ⟨["Name", "Email"],
   [⟨some "A", some "a@x.com", none⟩, ⟨some "B", none, none⟩,
    ⟨some "C", some "c@x.com", none⟩]⟩

/-! ### Lemmas about substring occurrence -/

theorem strData_append (a b : String) : (a ++ b).data = a.data ++ b.data := rfl

theorem leadsWith_iff (pat l : List Char) :
    leadsWith pat l = true ↔ ∃ v, l = pat ++ v := by
  induction pat generalizing l with
  | nil => simp [leadsWith]
  | cons a as ih =>
    cases l with
    | nil => simp [leadsWith]
    | cons b bs =>
      simp only [leadsWith, Bool.and_eq_true, beq_iff_eq, ih, List.cons_append,
        List.cons.injEq]
      constructor
      · rintro ⟨rfl, v, rfl⟩; exact ⟨v, rfl, rfl⟩
      · rintro ⟨v, rfl, rfl⟩; exact ⟨rfl, v, rfl⟩

theorem occursIn_iff (pat l : List Char) :
    occursIn pat l = true ↔ ∃ u v, l = u ++ pat ++ v := by
  induction l with
  | nil =>
    simp only [occursIn, List.isEmpty_iff]
    constructor
    · rintro rfl; exact ⟨[], [], rfl⟩
    · rintro ⟨u, v, h⟩
      rcases List.append_eq_nil.mp h.symm with ⟨h1, h2⟩
      exact (List.append_eq_nil.mp h1).2
  | cons ch rest ih =>
    simp only [occursIn, Bool.or_eq_true, leadsWith_iff, ih]
    constructor
    · rintro (⟨v, hv⟩ | ⟨u, v, hv⟩)
      · exact ⟨[], v, by simp [hv]⟩
      · exact ⟨ch :: u, v, by simp [hv]⟩
    · rintro ⟨u, v, hv⟩
      cases u with
      | nil => exact Or.inl ⟨v, by simpa using hv⟩
      | cons u0 us =>
        right
        refine ⟨us, v, ?_⟩
        injection hv with h1 h2

theorem occursIn_append_right (pat a b : List Char)
    (h : occursIn pat b = true) : occursIn pat (a ++ b) = true := by
  rcases (occursIn_iff pat b).mp h with ⟨u, v, rfl⟩
  exact (occursIn_iff pat _).mpr ⟨a ++ u, v, by simp⟩

theorem occursIn_append_left (pat a b : List Char)
    (h : occursIn pat a = true) : occursIn pat (a ++ b) = true := by
  rcases (occursIn_iff pat a).mp h with ⟨u, v, rfl⟩
  exact (occursIn_iff pat _).mpr ⟨u, v ++ b, by simp⟩

/-- An occurrence of a pattern beginning with `x` cannot start inside a
block that does not contain `x`. -/
theorem occursIn_append_head (x : Char) (ps a b : List Char)
    (ha : ∀ ch ∈ a, ch ≠ x) :
    occursIn (x :: ps) (a ++ b) = occursIn (x :: ps) b := by
  induction a with
  | nil => rfl
  | cons y a' ih =>
    have hy : y ≠ x := ha y (List.mem_cons_self y a')
    have hxy : (x == y) = false := beq_eq_false_iff_ne.mpr (Ne.symm hy)
    have h1 : occursIn (x :: ps) ((y :: a') ++ b)
        = (leadsWith (x :: ps) (y :: (a' ++ b)) || occursIn (x :: ps) (a' ++ b)) := rfl
    rw [h1]
    have h2 : leadsWith (x :: ps) (y :: (a' ++ b)) = false := by
      simp [leadsWith, hxy]
    rw [h2, Bool.false_or]
    exact ih fun ch hch => ha ch (List.mem_cons_of_mem y hch)

theorem occursIn_reverse_mono (pat l : List Char)
    (h : occursIn pat l = true) : occursIn pat.reverse l.reverse = true := by
  rcases (occursIn_iff pat l).mp h with ⟨u, v, rfl⟩
  exact (occursIn_iff _ _).mpr ⟨v.reverse, u.reverse, by simp⟩

/-- With an image uploaded, the HTML part contains the reference
`cid:banner`. -/
theorem htmlMessage_img_ref (p : String) :
    occursIn ("cid:" ++ bannerId).data (htmlMessage p true).data = true := by
  have hdecomp : (htmlMessage p true).data
      = htmlPre.data ++ (p.data ++ (htmlMid.data ++ (imgTag.data ++ htmlPost.data))) := by
    simp [htmlMessage, strData_append, List.append_assoc]
  rw [hdecomp]
  apply occursIn_append_right
  apply occursIn_append_right
  apply occursIn_append_right
  apply occursIn_append_left
  decide

/-- With no image uploaded, the wrapper adds no `cid:` reference: if the
personalized body contains none, neither does the whole HTML part. -/
theorem htmlMessage_no_cid (p : String)
    (hp : occursIn "cid:".data p.data = false) :
    occursIn "cid:".data (htmlMessage p false).data = false := by
  cases hv : occursIn "cid:".data (htmlMessage p false).data with
  | false => rfl
  | true =>
    exfalso
    have hdecomp : (htmlMessage p false).data
        = htmlPre.data ++ (p.data ++ (htmlMid.data ++ htmlPost.data)) := by
      simp [htmlMessage, strData_append, List.append_assoc]
    rw [hdecomp] at hv
    have hcid : ("cid:".data) = 'c' :: "id:".data := rfl
    rw [hcid] at hv
    have hv2 : occursIn ('c' :: "id:".data)
        (p.data ++ (htmlMid.data ++ htmlPost.data)) = true := by
      rw [← occursIn_append_head 'c' "id:".data htmlPre.data _ (by decide)]
      exact hv
    have hv3 := occursIn_reverse_mono _ _ hv2
    rw [List.reverse_append] at hv3
    have hpatrev : ('c' :: "id:".data).reverse = ':' :: ['d', 'i', 'c'] := by decide
    rw [hpatrev] at hv3
    have hv4 : occursIn (':' :: ['d', 'i', 'c']) p.data.reverse = true := by
      rw [← occursIn_append_head ':' ['d', 'i', 'c']
        (htmlMid.data ++ htmlPost.data).reverse _ (by decide)]
      exact hv3
    have hv5 := occursIn_reverse_mono _ _ hv4
    rw [List.reverse_reverse] at hv5
    have hfin : occursIn "cid:".data p.data = true := by
      have hrev : (':' :: ['d', 'i', 'c']).reverse = "cid:".data := by decide
      rw [hrev] at hv5
      exact hv5
    rw [hp] at hfin
    exact Bool.false_ne_true hfin

/-! ### Lemmas about the template renderer -/

theorem fmtRun_lit_chunk (n c : PyVal) (s : List Char)
    (hs : ∀ ch ∈ s, ch ≠ '{' ∧ ch ≠ '}') (l : List Char) :
    fmtRun n c (s ++ l) .text = appendOut s (fmtRun n c l .text) := by
  induction s with
  | nil => cases h : fmtRun n c l .text <;> simp [appendOut, h]
  | cons ch s ih =>
    have h1 : ch ≠ '{' := (hs ch (List.mem_cons_self ch s)).1
    have h2 : ch ≠ '}' := (hs ch (List.mem_cons_self ch s)).2
    have ih' := ih fun x hx => hs x (List.mem_cons_of_mem ch hx)
    have hstep : fmtRun n c ((ch :: s) ++ l) .text
        = match fmtRun n c (s ++ l) .text with
          | .ok t => .ok (ch :: t)
          | .error e => .error e := by
      simp only [List.cons_append, fmtRun, if_neg h1, if_neg h2]
      rfl
    rw [hstep, ih']
    cases fmtRun n c l .text <;> simp [appendOut]

theorem fmtRun_name_chunk (n c : PyVal) (l : List Char) :
    fmtRun n c ('{' :: 'n' :: 'a' :: 'm' :: 'e' :: '}' :: l) .text
      = appendOut (pyStr n).data (fmtRun n c l .text) := by
  cases h : fmtRun n c l .text <;>
    simp [fmtRun, evalField, keyChar, appendOut, h]

theorem fmtRun_company_chunk (n c : PyVal) (l : List Char) :
    fmtRun n c ('{' :: 'c' :: 'o' :: 'm' :: 'p' :: 'a' :: 'n' :: 'y' :: '}' :: l) .text
      = appendOut (pyStr c).data (fmtRun n c l .text) := by
  cases h : fmtRun n c l .text <;>
    simp [fmtRun, evalField, keyChar, appendOut, h]

/-- Rendering a template made only of literal text and the two recognized
placeholders succeeds and substitutes every placeholder occurrence, passing
all other text through unchanged. -/
theorem fmtRun_chunks (n c : PyVal) (chs : List Chunk)
    (h : ∀ cnk ∈ chs, chunkBraceFree cnk) :
    fmtRun n c (assembleChunks chs).data .text
      = .ok (renderChunks n c chs).data := by
  induction chs with
  | nil => rfl
  | cons ch chs ih =>
    have ih' := ih fun cnk hc => h cnk (List.mem_cons_of_mem _ hc)
    cases ch with
    | lit s =>
      have hbf : braceFreeStr s := h (Chunk.lit s) (List.mem_cons_self _ _)
      have hdec : (assembleChunks (Chunk.lit s :: chs)).data
          = s.data ++ (assembleChunks chs).data := strData_append _ _
      rw [hdec, fmtRun_lit_chunk n c s.data hbf, ih']
      simp [appendOut, renderChunks, strData_append]
    | phName =>
      have hdec : (assembleChunks (Chunk.phName :: chs)).data
          = '{' :: 'n' :: 'a' :: 'm' :: 'e' :: '}' :: (assembleChunks chs).data :=
        strData_append _ _
      rw [hdec, fmtRun_name_chunk, ih']
      simp [appendOut, renderChunks, strData_append]
    | phCompany =>
      have hdec : (assembleChunks (Chunk.phCompany :: chs)).data
          = '{' :: 'c' :: 'o' :: 'm' :: 'p' :: 'a' :: 'n' :: 'y' :: '}'
              :: (assembleChunks chs).data :=
        strData_append _ _
      rw [hdec, fmtRun_company_chunk, ih']
      simp [appendOut, renderChunks, strData_append]

theorem evalField_name (n c : PyVal) (fld : List Char)
    (hrest : (fld.dropWhile keyChar).isEmpty = true)
    (hk : String.mk (fld.takeWhile keyChar) = "name") :
    evalField n c fld = .ok (pyStr n).data := by
  have hkey : fld.takeWhile keyChar = "name".data := congrArg String.data hk
  have hdig : ("name".data.all (·.isDigit)) = false := by decide
  simp [evalField, hkey, hrest, hdig]

theorem evalField_company (n c : PyVal) (fld : List Char)
    (hrest : (fld.dropWhile keyChar).isEmpty = true)
    (hk : String.mk (fld.takeWhile keyChar) = "company") :
    evalField n c fld = .ok (pyStr c).data := by
  have hkey : fld.takeWhile keyChar = "company".data := congrArg String.data hk
  have hdig : ("company".data.all (·.isDigit)) = false := by decide
  have hne : String.mk "company".data ≠ "name" := by decide
  simp [evalField, hkey, hrest, hdig, hne]

theorem evalField_unknown (n c : PyVal) (fld : List Char)
    (hdig : ((fld.takeWhile keyChar).all (·.isDigit)) = false)
    (hn : String.mk (fld.takeWhile keyChar) ≠ "name")
    (hc : String.mk (fld.takeWhile keyChar) ≠ "company") :
    evalField n c fld
      = .error (.keyError (String.mk (fld.takeWhile keyChar))) := by
  simp [evalField, hdig, hn, hc]

/-- A template in the simple fragment whose keys are all recognized renders
successfully, whatever the record values are. -/
theorem fmtRun_ok_of_simpleKeys (n c : PyVal) :
    ∀ (l : List Char) (st : FmtSt) (ks : List String),
      simpleKeys l st = some ks →
      (∀ k ∈ ks, k = "name" ∨ k = "company") →
      ∃ s, fmtRun n c l st = .ok s := by
  intro l
  induction l with
  | nil =>
    intro st ks hsk hall
    cases st with
    | text => exact ⟨[], rfl⟩
    | lbrace => exact Option.noConfusion hsk
    | rbrace => exact Option.noConfusion hsk
    | field acc => exact Option.noConfusion hsk
  | cons ch rest ih =>
    intro st ks hsk hall
    cases st with
    | text =>
      by_cases h1 : ch = '{'
      · subst h1
        rw [simpleKeys, if_pos rfl] at hsk
        obtain ⟨s, hs⟩ := ih _ _ hsk hall
        exact ⟨s, by rw [fmtRun, if_pos rfl]; exact hs⟩
      · by_cases h2 : ch = '}'
        · subst h2
          rw [simpleKeys, if_neg h1, if_pos rfl] at hsk
          obtain ⟨s, hs⟩ := ih _ _ hsk hall
          exact ⟨s, by rw [fmtRun, if_neg h1, if_pos rfl]; exact hs⟩
        · rw [simpleKeys, if_neg h1, if_neg h2] at hsk
          obtain ⟨s, hs⟩ := ih _ _ hsk hall
          exact ⟨ch :: s, by rw [fmtRun, if_neg h1, if_neg h2, hs]⟩
    | lbrace =>
      by_cases h1 : ch = '{'
      · subst h1
        rw [simpleKeys, if_pos rfl] at hsk
        obtain ⟨s, hs⟩ := ih _ _ hsk hall
        exact ⟨'{' :: s, by rw [fmtRun, if_pos rfl, hs]⟩
      · by_cases h2 : ch = '}'
        · subst h2
          rw [simpleKeys, if_neg h1, if_pos rfl] at hsk
          exact Option.noConfusion hsk
        · rw [simpleKeys, if_neg h1, if_neg h2] at hsk
          obtain ⟨s, hs⟩ := ih _ _ hsk hall
          exact ⟨s, by rw [fmtRun, if_neg h1, if_neg h2]; exact hs⟩
    | rbrace =>
      by_cases h2 : ch = '}'
      · subst h2
        rw [simpleKeys, if_pos rfl] at hsk
        obtain ⟨s, hs⟩ := ih _ _ hsk hall
        exact ⟨'}' :: s, by rw [fmtRun, if_pos rfl, hs]⟩
      · rw [simpleKeys, if_neg h2] at hsk
        exact Option.noConfusion hsk
    | field acc =>
      by_cases h1 : ch = '}'
      · subst h1
        rw [simpleKeys, if_pos rfl] at hsk
        by_cases hcond : ((acc.reverse.dropWhile keyChar).isEmpty
            && !((acc.reverse.takeWhile keyChar).all (·.isDigit))) = true
        · rw [if_pos hcond] at hsk
          cases hks' : simpleKeys rest .text with
          | none => rw [hks'] at hsk; exact Option.noConfusion hsk
          | some ks' =>
            rw [hks'] at hsk
            have hks : ks = String.mk (acc.reverse.takeWhile keyChar) :: ks' := by
              injection hsk with h; exact h.symm
            subst hks
            have hcond' : (acc.reverse.dropWhile keyChar).isEmpty = true
                ∧ ((acc.reverse.takeWhile keyChar).all (·.isDigit)) = false := by
              simpa using hcond
            obtain ⟨hrest, hdig⟩ := hcond'
            have hhead := hall _ (List.mem_cons_self _ _)
            obtain ⟨t, ht⟩ := ih _ _ hks' fun k hk => hall k (List.mem_cons_of_mem _ hk)
            cases hhead with
            | inl hnm =>
              exact ⟨(pyStr n).data ++ t,
                by rw [fmtRun, if_pos rfl, evalField_name n c _ hrest hnm, ht]⟩
            | inr hcm =>
              exact ⟨(pyStr c).data ++ t,
                by rw [fmtRun, if_pos rfl, evalField_company n c _ hrest hcm, ht]⟩
        · rw [if_neg hcond] at hsk
          exact Option.noConfusion hsk
      · by_cases h2 : ch = '{'
        · subst h2
          rw [simpleKeys, if_neg h1, if_pos rfl] at hsk
          exact Option.noConfusion hsk
        · rw [simpleKeys, if_neg h1, if_neg h2] at hsk
          obtain ⟨s, hs⟩ := ih _ _ hsk hall
          exact ⟨s, by rw [fmtRun, if_neg h1, if_neg h2]; exact hs⟩

/-- A template in the simple fragment that references any key other than
`name` or `company` raises `KeyError` — for every record, since key lookup
never inspects the substituted values. -/
theorem fmtRun_keyError_of_simpleKeys (n c : PyVal) :
    ∀ (l : List Char) (st : FmtSt) (ks : List String),
      simpleKeys l st = some ks →
      (∃ k ∈ ks, k ≠ "name" ∧ k ≠ "company") →
      ∃ k, (k ≠ "name" ∧ k ≠ "company")
        ∧ fmtRun n c l st = .error (.keyError k) := by
  intro l
  induction l with
  | nil =>
    intro st ks hsk hbad
    cases st with
    | text =>
      have hks : ks = [] := by injection hsk with h; exact h.symm
      subst hks
      obtain ⟨k, hkmem, _⟩ := hbad
      exact absurd hkmem (List.not_mem_nil k)
    | lbrace => exact Option.noConfusion hsk
    | rbrace => exact Option.noConfusion hsk
    | field acc => exact Option.noConfusion hsk
  | cons ch rest ih =>
    intro st ks hsk hbad
    cases st with
    | text =>
      by_cases h1 : ch = '{'
      · subst h1
        rw [simpleKeys, if_pos rfl] at hsk
        obtain ⟨k, hk, herr⟩ := ih _ _ hsk hbad
        exact ⟨k, hk, by rw [fmtRun, if_pos rfl]; exact herr⟩
      · by_cases h2 : ch = '}'
        · subst h2
          rw [simpleKeys, if_neg h1, if_pos rfl] at hsk
          obtain ⟨k, hk, herr⟩ := ih _ _ hsk hbad
          exact ⟨k, hk, by rw [fmtRun, if_neg h1, if_pos rfl]; exact herr⟩
        · rw [simpleKeys, if_neg h1, if_neg h2] at hsk
          obtain ⟨k, hk, herr⟩ := ih _ _ hsk hbad
          exact ⟨k, hk, by rw [fmtRun, if_neg h1, if_neg h2, herr]⟩
    | lbrace =>
      by_cases h1 : ch = '{'
      · subst h1
        rw [simpleKeys, if_pos rfl] at hsk
        obtain ⟨k, hk, herr⟩ := ih _ _ hsk hbad
        exact ⟨k, hk, by rw [fmtRun, if_pos rfl, herr]⟩
      · by_cases h2 : ch = '}'
        · subst h2
          rw [simpleKeys, if_neg h1, if_pos rfl] at hsk
          exact Option.noConfusion hsk
        · rw [simpleKeys, if_neg h1, if_neg h2] at hsk
          obtain ⟨k, hk, herr⟩ := ih _ _ hsk hbad
          exact ⟨k, hk, by rw [fmtRun, if_neg h1, if_neg h2]; exact herr⟩
    | rbrace =>
      by_cases h2 : ch = '}'
      · subst h2
        rw [simpleKeys, if_pos rfl] at hsk
        obtain ⟨k, hk, herr⟩ := ih _ _ hsk hbad
        exact ⟨k, hk, by rw [fmtRun, if_pos rfl, herr]⟩
      · rw [simpleKeys, if_neg h2] at hsk
        exact Option.noConfusion hsk
    | field acc =>
      by_cases h1 : ch = '}'
      · subst h1
        rw [simpleKeys, if_pos rfl] at hsk
        by_cases hcond : ((acc.reverse.dropWhile keyChar).isEmpty
            && !((acc.reverse.takeWhile keyChar).all (·.isDigit))) = true
        · rw [if_pos hcond] at hsk
          cases hks' : simpleKeys rest .text with
          | none => rw [hks'] at hsk; exact Option.noConfusion hsk
          | some ks' =>
            rw [hks'] at hsk
            have hks : ks = String.mk (acc.reverse.takeWhile keyChar) :: ks' := by
              injection hsk with h; exact h.symm
            subst hks
            have hcond' : (acc.reverse.dropWhile keyChar).isEmpty = true
                ∧ ((acc.reverse.takeWhile keyChar).all (·.isDigit)) = false := by
              simpa using hcond
            obtain ⟨hrest, hdig⟩ := hcond'
            by_cases hn : String.mk (acc.reverse.takeWhile keyChar) = "name"
            · obtain ⟨k, hkmem, hkbad⟩ := hbad
              have hkmem' : k ∈ ks' := by
                cases List.mem_cons.mp hkmem with
                | inl h => exact absurd (h.trans hn) hkbad.1
                | inr h => exact h
              obtain ⟨k, hk, herr⟩ := ih _ _ hks' ⟨k, hkmem', hkbad⟩
              exact ⟨k, hk,
                by rw [fmtRun, if_pos rfl, evalField_name n c _ hrest hn, herr]⟩
            · by_cases hc : String.mk (acc.reverse.takeWhile keyChar) = "company"
              · obtain ⟨k, hkmem, hkbad⟩ := hbad
                have hkmem' : k ∈ ks' := by
                  cases List.mem_cons.mp hkmem with
                  | inl h => exact absurd (h.trans hc) hkbad.2
                  | inr h => exact h
                obtain ⟨k, hk, herr⟩ := ih _ _ hks' ⟨k, hkmem', hkbad⟩
                exact ⟨k, hk,
                  by rw [fmtRun, if_pos rfl, evalField_company n c _ hrest hc, herr]⟩
              · exact ⟨String.mk (acc.reverse.takeWhile keyChar), ⟨hn, hc⟩,
                  by rw [fmtRun, if_pos rfl, evalField_unknown n c _ hdig hn hc]⟩
        · rw [if_neg hcond] at hsk
          exact Option.noConfusion hsk
      · by_cases h2 : ch = '{'
        · subst h2
          rw [simpleKeys, if_neg h1, if_pos rfl] at hsk
          exact Option.noConfusion hsk
        · rw [simpleKeys, if_neg h1, if_neg h2] at hsk
          obtain ⟨k, hk, herr⟩ := ih _ _ hsk hbad
          exact ⟨k, hk, by rw [fmtRun, if_neg h1, if_neg h2]; exact herr⟩

example : pyFormat "Hi {name} from {company}" (some "Ann") (some "Acme")
    = .ok "Hi Ann from Acme" := by decide

example : pyFormat "{foo}" (some "Ann") (some "Acme")
    = .error (.keyError "foo") := by decide
example : pyFormat "{0}" (some "Ann") (some "Acme") = .error .indexError := by
  decide
example : pyFormat "\x7bname" (some "Ann") (some "Acme")
    = .error .valueError := by decide
example : pyFormat "a\x7db" (some "Ann") (some "Acme")
    = .error .valueError := by decide
example : pyFormat "{{x}}" (some "Ann") (some "Acme") = .ok "{x}" := by decide
example : pyFormat "Hi {name}" none (some "Acme") = .ok "Hi nan" := by decide
example : simpleKeys "Hi {name} and {foo}".data .text
    = some ["name", "foo"] := by decide
example : simpleKeys "{name!r}".data .text = none := by decide

/-! ### Lemmas about the send orchestrator -/

theorem sendLoop_ok (sender subject tmpl : String) (tr : Transport)
    (img : Option InlineImage) (total : Nat) :
    ∀ (l : List Row) (i : Nat),
      (∀ r ∈ l, ∃ s, pyFormat tmpl r.name r.company = .ok s) →
      sendLoop sender subject tmpl tr img total i l
        = (okLoopTrace sender subject tmpl tr img total i l, none) := by
  intro l
  induction l with
  | nil => intro i _; rfl
  | cons rec rest ih =>
    intro i hfmt
    obtain ⟨s, hs⟩ := hfmt rec (List.mem_cons_self _ _)
    have ih' := ih (i + 1) fun r hr => hfmt r (List.mem_cons_of_mem _ hr)
    simp only [sendLoop, okLoopTrace, hs, ih']

theorem okLoopTrace_mem_fail (sender subject tmpl : String) (tr : Transport)
    (img : Option InlineImage) (total : Nat) :
    ∀ (l : List Row) (i j : Nat) (d : String),
      (∀ r ∈ l, ∃ s, pyFormat tmpl r.name r.company = .ok s) →
      j < l.length → tr.send (i + j) = .error d →
      PassEvent.sendFailed (i + j) d
        ∈ okLoopTrace sender subject tmpl tr img total i l := by
  intro l
  induction l with
  | nil => intro i j d _ hj _; exact absurd hj (by simp)
  | cons rec rest ih =>
    intro i j d hfmt hj hsend
    obtain ⟨s, hs⟩ := hfmt rec (List.mem_cons_self _ _)
    cases j with
    | zero =>
      rw [Nat.add_zero] at hsend ⊢
      simp only [okLoopTrace, hs, hsend]
      exact List.mem_cons_self _ _
    | succ j' =>
      have hj' : j' < rest.length := by simpa using hj
      have harith : i + (j' + 1) = (i + 1) + j' := by omega
      rw [harith] at hsend ⊢
      have hmem := ih (i + 1) j' d
        (fun r hr => hfmt r (List.mem_cons_of_mem _ hr)) hj' hsend
      simp only [okLoopTrace, hs]
      exact List.mem_cons_of_mem _ (List.mem_cons_of_mem _ hmem)

theorem okLoopTrace_mem_prog (sender subject tmpl : String) (tr : Transport)
    (img : Option InlineImage) (total : Nat) :
    ∀ (l : List Row) (i : Nat),
      (∀ r ∈ l, ∃ s, pyFormat tmpl r.name r.company = .ok s) →
      l ≠ [] →
      PassEvent.progressed (i + l.length) total
        ∈ okLoopTrace sender subject tmpl tr img total i l := by
  intro l
  induction l with
  | nil => intro i _ hne; exact absurd rfl hne
  | cons rec rest ih =>
    intro i hfmt _
    obtain ⟨s, hs⟩ := hfmt rec (List.mem_cons_self _ _)
    cases hrest : rest with
    | nil =>
      subst hrest
      simp only [okLoopTrace, hs]
      have : i + [rec].length = i + 1 := rfl
      rw [this]
      exact List.mem_cons_of_mem _ (List.mem_cons_self _ _)
    | cons r0 rest0 =>
      have hne' : rest ≠ [] := by rw [hrest]; exact List.cons_ne_nil _ _
      rw [← hrest]
      have hmem := ih (i + 1) (fun r hr => hfmt r (List.mem_cons_of_mem _ hr)) hne'
      have harith : (i + 1) + rest.length = i + (rec :: rest).length := by
        simp; omega
      rw [harith] at hmem
      simp only [okLoopTrace, hs]
      exact List.mem_cons_of_mem _ (List.mem_cons_of_mem _ hmem)

/-! ### The claims -/

/-- Claim C1: for every template (in the modelled simple fragment) that
references a placeholder name other than `name` or `company`, rendering
fails with the `KeyError`-backed `TemplateError` for every record, and the
send loop aborts at its first iteration: the pass trace contains the
template error message and the final banner only — no message is sent, no
progress update is emitted. -/
theorem claim1_unknown_placeholder_aborts
    (tmpl : String) (ks : List String)
    (hks : simpleKeys tmpl.data .text = some ks)
    (k : String) (hk : k ∈ ks) (hbadn : k ≠ "name") (hbadc : k ≠ "company")
    (sender subject : String) (recs : List Row) (tr : Transport)
    (img : Option InlineImage)
    (hLogin : tr.login = .ok ()) (hrecs : recs ≠ []) :
    (∀ r : Row, ∃ k', (k' ≠ "name" ∧ k' ≠ "company")
        ∧ pyFormat tmpl r.name r.company = .error (.keyError k'))
    ∧ sendPass sender subject tmpl recs tr img
        = [.templateErrorMsg, .successMsg recs.length] := by
  have hfail : ∀ (n c : PyVal), ∃ k', (k' ≠ "name" ∧ k' ≠ "company")
      ∧ fmtRun n c tmpl.data .text = .error (.keyError k') := fun n c =>
    fmtRun_keyError_of_simpleKeys n c tmpl.data .text ks hks ⟨k, hk, hbadn, hbadc⟩
  constructor
  · intro r
    obtain ⟨k', hk', herr⟩ := hfail r.name r.company
    exact ⟨k', hk', by simp only [pyFormat, herr]⟩
  · cases recs with
    | nil => exact absurd rfl hrecs
    | cons r rest =>
      obtain ⟨k', hk', herr⟩ := hfail r.name r.company
      have hloop : sendLoop sender subject tmpl tr img (r :: rest).length 0 (r :: rest)
          = ([.templateErrorMsg], none) := by
        simp only [sendLoop, pyFormat, herr]
      simp only [sendPass, hLogin, hloop, List.singleton_append]

theorem claim1_witness :
    pyFormat "{foo}" (some "Ann") (some "Acme") = .error (.keyError "foo")
    ∧ sendPass "s@x.com" "Sub" "{foo}" fiveRecs allOkTransport none
        = [.templateErrorMsg, .successMsg 5] := by
  have h := claim1_unknown_placeholder_aborts "{foo}" ["foo"] (by decide)
    "foo" (by decide) (by decide) (by decide)
    "s@x.com" "Sub" fiveRecs allOkTransport none rfl (by decide)
  exact ⟨by decide, h.2⟩

/-- Claim C2: with both required columns present the loader succeeds; its
output is an order-preserving sublist of the (company-defaulted) rows, it
contains exactly the rows whose `Email` cell is present, and when the
`Company` column is absent every produced record carries `Company = ""`;
the concrete three-row source with one empty-`Email` row yields exactly two
records. -/
theorem claim2_loader_order_and_exclusion
    (t : SourceTable) (hN : "Name" ∈ t.columns) (hE : "Email" ∈ t.columns) :
    ∃ l, loadRecipients t = .ok l
      ∧ List.Sublist l (withCompanyDefault t)
      ∧ (∀ r : Row, r ∈ l ↔ r ∈ withCompanyDefault t ∧ r.email.isSome = true)
      ∧ ("Company" ∉ t.columns → ∀ r ∈ l, r.company = some "")
      ∧ loadRecipients threeRowTable
          = .ok [⟨some "A", some "a@x.com", some ""⟩,
                 ⟨some "C", some "c@x.com", some ""⟩] := by
  refine ⟨(withCompanyDefault t).filter (fun r => r.email.isSome), ?_, ?_, ?_, ?_, by decide⟩
  · simp [loadRecipients, hN, hE]
  · exact List.filter_sublist _
  · intro r; simp [List.mem_filter]
  · intro hC r hr
    have hr' : r ∈ withCompanyDefault t := (List.mem_filter.mp hr).1
    unfold withCompanyDefault at hr'
    rw [if_neg hC] at hr'
    obtain ⟨r0, _, rfl⟩ := List.mem_map.mp hr'
    rfl

theorem claim2_witness :
    ∃ l, loadRecipients threeRowTable = .ok l
      ∧ List.Sublist l (withCompanyDefault threeRowTable)
      ∧ (∀ r : Row, r ∈ l ↔ r ∈ withCompanyDefault threeRowTable ∧ r.email.isSome = true)
      ∧ ("Company" ∉ threeRowTable.columns → ∀ r ∈ l, r.company = some "")
      ∧ loadRecipients threeRowTable
          = .ok [⟨some "A", some "a@x.com", some ""⟩,
                 ⟨some "C", some "c@x.com", some ""⟩] :=
  claim2_loader_order_and_exclusion threeRowTable (by decide) (by decide)

/-- Claim C3: if the column set lacks `Name` or `Email`, loading fails with
`ValidationError` and the recipient sequence stays empty. -/
theorem claim3_missing_columns_fail
    (t : SourceTable) (h : ¬("Name" ∈ t.columns ∧ "Email" ∈ t.columns)) :
    loadRecipients t = .error .missingColumns ∧ recipientsAfterLoad t = [] := by
  have h1 : loadRecipients t = .error .missingColumns := by
    simp [loadRecipients, h]
  exact ⟨h1, by simp [recipientsAfterLoad, h1]⟩

theorem claim3_witness :
    loadRecipients ⟨["Name", "Address"], []⟩ = .error .missingColumns
    ∧ recipientsAfterLoad ⟨["Name", "Address"], []⟩ = [] :=
  claim3_missing_columns_fail ⟨["Name", "Address"], []⟩ (by decide)

/-- Claim C4: a template made only of brace-free literal text and the
placeholders `name`/`company` renders by substituting every placeholder
occurrence with the record value and passing all other text through
unchanged, for every record. -/
theorem claim4_placeholder_substitution
    (chs : List Chunk) (h : ∀ cnk ∈ chs, chunkBraceFree cnk) (n c : PyVal) :
    pyFormat (assembleChunks chs) n c = .ok (renderChunks n c chs) := by
  unfold pyFormat
  rw [fmtRun_chunks n c chs h]

theorem claim4_witness :
    pyFormat (assembleChunks [.lit "Hi ", .phName, .lit " from ", .phCompany])
        (some "Ann") (some "Acme")
      = .ok (renderChunks (some "Ann") (some "Acme")
          [.lit "Hi ", .phName, .lit " from ", .phCompany])
    ∧ assembleChunks [.lit "Hi ", .phName, .lit " from ", .phCompany]
        = "Hi {name} from {company}"
    ∧ renderChunks (some "Ann") (some "Acme")
        [.lit "Hi ", .phName, .lit " from ", .phCompany]
        = "Hi Ann from Acme" :=
  ⟨claim4_placeholder_substitution
      [.lit "Hi ", .phName, .lit " from ", .phCompany] (by decide)
      (some "Ann") (some "Acme"),
   by decide, by decide⟩

/-- Claim C5: when login succeeds and the template renders for every
recipient, a per-recipient delivery failure is non-fatal: the pass trace is
exactly one send event plus one progress update per recipient followed by
the final banner, every delivery failure is recorded with its error detail,
and the final progress update is `total/total`, i.e. fraction 1. -/
theorem claim5_delivery_failure_nonfatal
    (sender subject tmpl : String) (recs : List Row) (tr : Transport)
    (img : Option InlineImage)
    (hLogin : tr.login = .ok ())
    (hfmt : ∀ r ∈ recs, ∃ s, pyFormat tmpl r.name r.company = .ok s) :
    sendPass sender subject tmpl recs tr img
      = okLoopTrace sender subject tmpl tr img recs.length 0 recs
          ++ [.successMsg recs.length]
    ∧ (∀ i d, i < recs.length → tr.send i = .error d →
        PassEvent.sendFailed i d ∈ sendPass sender subject tmpl recs tr img)
    ∧ (recs ≠ [] →
        PassEvent.progressed recs.length recs.length
            ∈ sendPass sender subject tmpl recs tr img
        ∧ progressFrac recs.length recs.length = 1) := by
  have hloop := sendLoop_ok sender subject tmpl tr img recs.length recs 0 hfmt
  have hPass : sendPass sender subject tmpl recs tr img
      = okLoopTrace sender subject tmpl tr img recs.length 0 recs
          ++ [.successMsg recs.length] := by
    simp only [sendPass, hLogin, hloop]
  refine ⟨hPass, ?_, ?_⟩
  · intro i d hi hsend
    rw [hPass]
    apply List.mem_append_left
    have hmem := okLoopTrace_mem_fail sender subject tmpl tr img recs.length
      recs 0 i d hfmt hi (by simpa using hsend)
    simpa using hmem
  · intro hne
    constructor
    · rw [hPass]
      apply List.mem_append_left
      have hmem := okLoopTrace_mem_prog sender subject tmpl tr img recs.length
        recs 0 hfmt hne
      simpa using hmem
    · have h0 : recs.length ≠ 0 := fun h => hne (List.length_eq_zero.mp h)
      have hlen : (recs.length : ℚ) ≠ 0 := Nat.cast_ne_zero.mpr h0
      unfold progressFrac
      exact div_self hlen

theorem claim5_witness :
    PassEvent.sendFailed 2 "550 recipient rejected"
        ∈ sendPass "s@x.com" "Sub" "Hi {name}" fiveRecs failThirdTransport none
    ∧ PassEvent.progressed 5 5
        ∈ sendPass "s@x.com" "Sub" "Hi {name}" fiveRecs failThirdTransport none
    ∧ progressFrac 5 5 = 1 := by
  have h := claim5_delivery_failure_nonfatal "s@x.com" "Sub" "Hi {name}"
    fiveRecs failThirdTransport none rfl
    (by intro r hr; fin_cases hr <;> exact ⟨_, rfl⟩)
  have hp := h.2.2 (by decide)
  exact ⟨h.2.1 2 "550 recipient rejected" (by decide) rfl, hp.1, hp.2⟩

/-- Claim C6: a rejected login aborts the whole pass with the single
top-level authentication error before anything else happens: no delivery
failure is recorded, no message is submitted and no progress is made. -/
theorem claim6_auth_rejection_aborts
    (sender subject tmpl : String) (recs : List Row) (tr : Transport)
    (img : Option InlineImage) (d : String) (hLogin : tr.login = .error d) :
    sendPass sender subject tmpl recs tr img = [.topErrorMsg (.authError d)]
    ∧ (∀ i e, PassEvent.sendFailed i e ∉ sendPass sender subject tmpl recs tr img)
    ∧ (∀ i m, PassEvent.sentOk i m ∉ sendPass sender subject tmpl recs tr img) := by
  have h : sendPass sender subject tmpl recs tr img
      = [.topErrorMsg (.authError d)] := by
    simp [sendPass, hLogin]
  refine ⟨h, ?_, ?_⟩
  · intro i e; rw [h]; simp
  · intro i m; rw [h]; simp

theorem claim6_witness :
    sendPass "s@x.com" "Sub" "Hello" fiveRecs
        ⟨.error "535 bad credentials", fun _ => .ok ()⟩ none
      = [.topErrorMsg (.authError "535 bad credentials")] :=
  (claim6_auth_rejection_aborts "s@x.com" "Sub" "Hello" fiveRecs
    ⟨.error "535 bad credentials", fun _ => .ok ()⟩ none "535 bad credentials" rfl).1

/-- Claim C7 (the code violates it): after the template-error `break` the
code still executes the final `st.success` banner, so the pass displays
both the template error message and the full-success summary — even though
no message was sent.  Evaluation of the pass at the failing input. -/
theorem claim7_banner_shown_after_abort :
    sendPass "s@x.com" "Sub" "{foo}" [⟨some "Ann", some "ann@x.com", some "Acme"⟩]
        allOkTransport none
      = [.templateErrorMsg, .successMsg 1]
    ∧ PassEvent.templateErrorMsg
        ∈ sendPass "s@x.com" "Sub" "{foo}" [⟨some "Ann", some "ann@x.com", some "Acme"⟩]
            allOkTransport none
    ∧ PassEvent.successMsg 1
        ∈ sendPass "s@x.com" "Sub" "{foo}" [⟨some "Ann", some "ann@x.com", some "Acme"⟩]
            allOkTransport none
    ∧ (∀ i m, PassEvent.sentOk i m
        ∉ sendPass "s@x.com" "Sub" "{foo}" [⟨some "Ann", some "ann@x.com", some "Acme"⟩]
            allOkTransport none) := by
  refine ⟨by decide, by decide, by decide, ?_⟩
  intro i m hmem
  have h : sendPass "s@x.com" "Sub" "{foo}"
      [⟨some "Ann", some "ann@x.com", some "Acme"⟩] allOkTransport none
      = [.templateErrorMsg, .successMsg 1] := by decide
  rw [h] at hmem
  simp at hmem

/-- Claim C8: a built message's HTML part references the content identifier
`banner` exactly when an inline image is supplied, and the image part is
tagged with that same identifier (`Content-ID: <banner>`), so the reference
resolves; with no image (and a body that contains no `cid:` text of its
own) the HTML part contains no `cid:` reference at all. -/
theorem claim8_cid_roundtrip (sender rcpt subject p : String) (img : InlineImage)
    (hp : occursIn "cid:".data p.data = false) :
    (occursIn ("cid:" ++ bannerId).data
        (buildMessage sender rcpt subject p (some img)).htmlBody.data = true
      ∧ (buildMessage sender rcpt subject p (some img)).imagePart
          = some ⟨img.bytes, "<" ++ bannerId ++ ">", img.filename⟩)
    ∧ (occursIn "cid:".data
        (buildMessage sender rcpt subject p none).htmlBody.data = false
      ∧ (buildMessage sender rcpt subject p none).imagePart = none) := by
  refine ⟨⟨?_, rfl⟩, ?_, rfl⟩
  · exact htmlMessage_img_ref p
  · exact htmlMessage_no_cid p hp

theorem claim8_witness :
    occursIn ("cid:" ++ bannerId).data
        (buildMessage "s@x.com" "r@x.com" "Sub" "hello" (some ⟨"b.png", [7]⟩)).htmlBody.data
      = true
    ∧ occursIn "cid:".data
        (buildMessage "s@x.com" "r@x.com" "Sub" "hello" none).htmlBody.data = false := by
  have h := claim8_cid_roundtrip "s@x.com" "r@x.com" "Sub" "hello" ⟨"b.png", [7]⟩ (by decide)
  exact ⟨h.1.1, h.2.1⟩

/-- Claim C9 (the code violates its empty-string half): a row whose `Email`
cell is empty is silently dropped, but a row whose `Name` (or `Company`)
cell is empty passes through with the NaN value, not with an empty string —
`to_dict("records")` keeps the key, so the `rec.get(..., "")` default never
applies, and the template then renders the greeting as `Hi nan …`. -/
theorem claim9_nan_passthrough_eval :
    loadRecipients nanNameTable = .ok [nanNameRow]
    ∧ nanNameRow.name = none
    ∧ nanNameRow.name ≠ some ""
    ∧ pyFormat "Hi {name} from {company}" nanNameRow.name nanNameRow.company
        = .ok "Hi nan from Acme"
    ∧ loadRecipients ⟨["Name", "Email"], [⟨some "A", none, none⟩]⟩ = .ok [] := by
  refine ⟨by decide, rfl, by decide, by decide, by decide⟩

/-- Claim C10: a positional field or an unbalanced brace raises
`IndexError` / `ValueError` rather than `KeyError`, which escapes the
per-recipient handler: the pass aborts at the first recipient with the
single generic top-level error, not via the template-error path, and no
further recipient is processed. -/
theorem claim10_non_keyerror_escapes
    (sender subject : String) (recs : List Row) (tr : Transport)
    (img : Option InlineImage)
    (hLogin : tr.login = .ok ()) (hrecs : recs ≠ []) :
    (∀ r : Row, pyFormat "{0}" r.name r.company = .error .indexError)
    ∧ (∀ r : Row, pyFormat "\x7bname" r.name r.company = .error .valueError)
    ∧ sendPass sender subject "{0}" recs tr img
        = [.topErrorMsg (.formatException .indexError)]
    ∧ sendPass sender subject "\x7bname" recs tr img
        = [.topErrorMsg (.formatException .valueError)] := by
  refine ⟨fun r => rfl, fun r => rfl, ?_, ?_⟩
  · cases recs with
    | nil => exact absurd rfl hrecs
    | cons r rest =>
      have hloop : sendLoop sender subject "{0}" tr img (r :: rest).length 0 (r :: rest)
          = ([], some .indexError) := rfl
      simp only [sendPass, hLogin, hloop, List.nil_append]
  · cases recs with
    | nil => exact absurd rfl hrecs
    | cons r rest =>
      have hloop : sendLoop sender subject "\x7bname" tr img (r :: rest).length 0 (r :: rest)
          = ([], some .valueError) := rfl
      simp only [sendPass, hLogin, hloop, List.nil_append]

theorem claim10_witness :
    pyFormat "{0}" (some "Ann") (some "Acme") = .error .indexError
    ∧ sendPass "s@x.com" "Sub" "{0}" fiveRecs allOkTransport none
        = [.topErrorMsg (.formatException .indexError)]
    ∧ sendPass "s@x.com" "Sub" "\x7bname" fiveRecs allOkTransport none
        = [.topErrorMsg (.formatException .valueError)] := by
  have h := claim10_non_keyerror_escapes "s@x.com" "Sub" fiveRecs allOkTransport none
    rfl (by decide)
  exact ⟨h.1 ⟨some "Ann", some "x@x", some "Acme"⟩, h.2.2.1, h.2.2.2⟩
